import Mathlib

/-!
Verification of the request-routing and conversational-state core of the
`ai-telegram-link` Telegram chat-bot (Go).  The definitions below are a
shallow embedding of the relevant Go functions:

* `splitMessage` — `internal/handler/handler.go` (`func splitMessage`):
  splits a reply into rune chunks of a fixed size.
* `HistoryMessage`, `AddHistoryMessage`, `LoadProjectHistory`,
  `CountProjectHistory`, `TrimProjectHistory` — `internal/storage/storage.go`:
  the per-project bolt history sub-bucket, keyed by the monotonic
  `NextSequence` counter, iterated in ascending key order.
* `turnTrace`, `processTurn` — the conversational tail of `HandleUpdate`
  (`internal/handler/handler.go`): user-side history appends, progress
  message, asynchronous model call, reply chunking and assistant-side
  history append plus trim.
* `handleText`, `handleNewProject`, `handleSetTopic` — the command and
  pending-action dispatch portion of `HandleUpdate`.
-/

namespace AiTelegramLink

/-! ### Reply chunking (`splitMessage`) -/

/--
Fuel-indexed loop body of Go `splitMessage`.  The Go loop
`for len(runes) > 0 { end := size; if len(runes) < end { end = len(runes) };
chunks = append(chunks, string(runes[:end])); runes = runes[end:] }`
removes `size` runes per iteration, so with `size ≥ 1` it runs at most
`runes.length` iterations; the fuel is that bound.  `runes.take size`
is exactly `runes[:end]` with `end = min size (len runes)`, and
`runes.drop size` is `runes[end:]`.
-/
def splitRunesAux : Nat → List Char → Nat → List (List Char)
  | 0, _, _ => []
  | _ + 1, [], _ => []
  | fuel + 1, r :: rs, size =>
      (r :: rs).take size :: splitRunesAux fuel ((r :: rs).drop size) size

/--
Rune-level `splitMessage`.  For `size = 0` the Go loop never terminates
(it appends empty chunks forever); the claims only concern `size > 0`,
so that case is mapped to `[]` here and every theorem assumes `0 < size`.
-/
def splitRunes (runes : List Char) (size : Nat) : List (List Char) :=
  if size = 0 then [] else splitRunesAux runes.length runes size

/-- Go `splitMessage(text string, size int) []string`: converts the text to
runes, then chunks it.  An empty text yields `nil` (the empty list). -/
def splitMessage (text : String) (size : Nat) : List String :=
  (splitRunes text.data size).map (fun rs => String.mk rs)

theorem splitRunesAux_nil (fuel size : Nat) :
    splitRunesAux fuel [] size = [] := by
  cases fuel <;> rfl

/-- Any fuel at least the rune count yields the same chunk list. -/
theorem splitRunesAux_congr (size : Nat) (hsize : 0 < size) :
    ∀ (fuel1 fuel2 : Nat) (runes : List Char),
      runes.length ≤ fuel1 → runes.length ≤ fuel2 →
      splitRunesAux fuel1 runes size = splitRunesAux fuel2 runes size := by
  intro fuel1
  induction fuel1 with
  | zero =>
      intro fuel2 runes h1 _
      have : runes = [] := List.length_eq_zero.mp (Nat.le_zero.mp h1)
      subst this
      simp [splitRunesAux_nil]
  | succ n ih =>
      intro fuel2 runes h1 h2
      cases runes with
      | nil => simp [splitRunesAux_nil]
      | cons r rs =>
          cases fuel2 with
          | zero => simp at h2
          | succ m =>
              show (r :: rs).take size :: splitRunesAux n ((r :: rs).drop size) size
                  = (r :: rs).take size :: splitRunesAux m ((r :: rs).drop size) size
              have hd : ((r :: rs).drop size).length ≤ n := by
                simp only [List.length_drop, List.length_cons] at *
                omega
              have hd2 : ((r :: rs).drop size).length ≤ m := by
                simp only [List.length_drop, List.length_cons] at *
                omega
              rw [ih _ _ hd hd2]

theorem splitRunes_nil (size : Nat) : splitRunes [] size = [] := by
  unfold splitRunes
  split <;> simp [splitRunesAux_nil]

theorem splitRunes_cons (r : Char) (rs : List Char) (size : Nat)
    (hsize : 0 < size) :
    splitRunes (r :: rs) size =
      (r :: rs).take size :: splitRunes ((r :: rs).drop size) size := by
  unfold splitRunes
  have h0 : ¬ size = 0 := Nat.pos_iff_ne_zero.mp hsize
  simp only [h0, if_false]
  show (r :: rs).take size :: splitRunesAux rs.length ((r :: rs).drop size) size
      = (r :: rs).take size :: splitRunesAux ((r :: rs).drop size).length
          ((r :: rs).drop size) size
  have hd : ((r :: rs).drop size).length ≤ rs.length := by
    simp only [List.length_drop, List.length_cons]
    omega
  rw [splitRunesAux_congr size hsize rs.length ((r :: rs).drop size).length
        ((r :: rs).drop size) hd (le_refl _)]

/-- A strong-induction principle on the rune list following the loop. -/
theorem splitRunes_rec (size : Nat) (hsize : 0 < size)
    (P : List Char → Prop) (hnil : P [])
    (hcons : ∀ r rs, P ((r :: rs).drop size) → P (r :: rs)) :
    ∀ runes : List Char, P runes := by
  have H : ∀ (n : Nat) (runes : List Char), runes.length = n → P runes := by
    intro n
    induction n using Nat.strong_induction_on with
    | _ n ih =>
        intro runes hn
        cases runes with
        | nil => exact hnil
        | cons r rs =>
            apply hcons
            apply ih ((r :: rs).drop size).length _ _ rfl
            subst hn
            simp only [List.length_drop, List.length_cons]
            omega
  intro runes
  exact H runes.length runes rfl

theorem splitRunes_flatten (size : Nat) (hsize : 0 < size) :
    ∀ runes : List Char, (splitRunes runes size).flatten = runes := by
  apply splitRunes_rec size hsize
  · simp [splitRunes_nil]
  · intro r rs ih
    rw [splitRunes_cons r rs size hsize]
    simp [ih]

theorem splitRunes_length (size : Nat) (hsize : 0 < size) :
    ∀ runes : List Char,
      (splitRunes runes size).length = (runes.length + size - 1) / size := by
  apply splitRunes_rec size hsize
  · rw [splitRunes_nil]
    simp only [List.length_nil, Nat.zero_add]
    rw [Nat.div_eq_of_lt (by omega)]
  · intro r rs ih
    rw [splitRunes_cons r rs size hsize]
    simp only [List.length_cons, List.length_drop] at *
    rw [ih]
    rcases le_or_lt (rs.length + 1) size with hle | hlt
    · have h1 : rs.length + 1 - size = 0 := by omega
      rw [h1]
      rw [Nat.div_eq_of_lt (by omega)]
      have h2 : (rs.length + 1 + size - 1) / size = 1 :=
        Nat.div_eq_of_lt_le (by omega) (by omega)
      omega
    · have h1 : rs.length + 1 - size + size - 1 = rs.length + 1 - 1 := by omega
      rw [h1]
      have h2 : rs.length + 1 + size - 1 = (rs.length + 1 - 1) + 1 * size := by
        omega
      rw [h2, Nat.add_mul_div_right _ _ hsize]

theorem splitRunes_chunk_le (size : Nat) (hsize : 0 < size) :
    ∀ runes : List Char,
      ∀ chunk ∈ splitRunes runes size, chunk.length ≤ size := by
  apply splitRunes_rec size hsize
  · simp [splitRunes_nil]
  · intro r rs ih chunk hmem
    rw [splitRunes_cons r rs size hsize] at hmem
    rcases List.mem_cons.mp hmem with h | h
    · subst h
      exact List.length_take_le size (r :: rs)
    · exact ih chunk h

theorem string_join_mk (ls : List (List Char)) :
    String.join (ls.map (fun rs => String.mk rs)) = String.mk ls.flatten := by
  rw [String.join_eq]
  congr 1
  have h : List.map (String.data ∘ fun rs => String.mk rs) ls = List.map id ls := by
    apply List.map_congr_left
    intro a _
    rfl
  simpa using congrArg List.flatten h

/--
C2 — For every reply text of `N` runes and every chunk size `C > 0`,
`splitMessage text C` returns `⌈N/C⌉` chunks (none when `N = 0`); every
chunk contains at most `C` runes; the concatenation of all chunks equals
the original text exactly; and no chunk boundary falls inside a
multi-rune character: the chunks are consecutive rune blocks whose
rune-level flattening is exactly the original rune sequence, so every
boundary lies between two whole runes.
-/
theorem claim_C2 (text : String) (C : Nat) (hC : 0 < C) :
    (splitMessage text C).length = (text.data.length + C - 1) / C ∧
    (∀ chunk ∈ splitMessage text C, chunk.data.length ≤ C) ∧
    String.join (splitMessage text C) = text ∧
    (splitRunes text.data C).flatten = text.data := by
  refine ⟨?_, ?_, ?_, splitRunes_flatten C hC text.data⟩
  · unfold splitMessage
    rw [List.length_map]
    exact splitRunes_length C hC text.data
  · intro chunk hmem
    unfold splitMessage at hmem
    rcases List.mem_map.mp hmem with ⟨rs, hrs, heq⟩
    subst heq
    exact splitRunes_chunk_le C hC text.data rs hrs
  · unfold splitMessage
    rw [string_join_mk, splitRunes_flatten C hC text.data]

/-- Witness for C2 at the concrete text `"ab∀cd"` (5 runes, one of them
multi-byte) and chunk size 2. -/
theorem claim_C2_witness :
    (splitMessage "ab∀cd" 2).length = ("ab∀cd".data.length + 2 - 1) / 2 ∧
    (∀ chunk ∈ splitMessage "ab∀cd" 2, chunk.data.length ≤ 2) ∧
    String.join (splitMessage "ab∀cd" 2) = "ab∀cd" ∧
    (splitRunes "ab∀cd".data 2).flatten = "ab∀cd".data :=
  claim_C2 "ab∀cd" 2 (by decide)

/-! ### Per-project history storage (`internal/storage/storage.go`)

The bolt `history` bucket holds one sub-bucket per project.  A sub-bucket
maps 8-byte big-endian keys (allocated by the monotonic `NextSequence`
counter) to JSON-serialized `HistoryMessage` values, and bolt iterates a
bucket in ascending key order.  The model below tracks the counter
(`nextSeq`) and the key-ordered entry list of the project sub-bucket;
`json.Marshal`/`json.Unmarshal` of a `HistoryMessage` round-trips every
field, so the entries hold the message values directly. -/

/-- Go `storage.HistoryMessage` struct. -/
structure HistoryMessage where
  Role : String
  WhoID : Int
  WhoName : String
  When : Int
  Content : String
deriving DecidableEq

/-- The per-project bolt history sub-bucket: `NextSequence` counter plus
the entries in ascending key order. -/
structure HistBucket where
  nextSeq : Nat
  entries : List (Nat × HistoryMessage)
deriving DecidableEq

/-- A fresh (or just-created) project sub-bucket. -/
def emptyBucket : HistBucket := ⟨0, []⟩

/-- Model of `bolt.Bucket.Put`: a B+-tree insert keyed in ascending order; an
existing key is overwritten. -/
def putByKey : List (Nat × HistoryMessage) → Nat → HistoryMessage →
    List (Nat × HistoryMessage)
  | [], k, m => [(k, m)]
  | (k2, m2) :: rest, k, m =>
      if k < k2 then (k, m) :: (k2, m2) :: rest
      else if k = k2 then (k, m) :: rest
      else (k2, m2) :: putByKey rest k m

/-- Go `storage.AddHistoryMessage`: allocates `id := NextSequence()` and
`Put`s the marshalled message under that key. -/
def AddHistoryMessage (b : HistBucket) (m : HistoryMessage) : HistBucket :=
  { nextSeq := b.nextSeq + 1, entries := putByKey b.entries (b.nextSeq + 1) m }

/-- Go `storage.LoadProjectHistory`: `ForEach` over the sub-bucket in
ascending key order, unmarshalling each value. -/
def LoadProjectHistory (b : HistBucket) : List HistoryMessage :=
  b.entries.map Prod.snd

/-- Go `storage.CountProjectHistory`: `Stats().KeyN`. -/
def CountProjectHistory (b : HistBucket) : Nat :=
  b.entries.length

/-- Go `storage.TrimProjectHistory`: no-op for `limit ≤ 0`; otherwise
deletes `KeyN - limit` entries from the front of the key order (the Go
loop repeatedly positions the cursor at `First()` and deletes). -/
def TrimProjectHistory (b : HistBucket) (limit : Int) : HistBucket :=
  if limit ≤ 0 then b
  else if (b.entries.length : Int) - limit ≤ 0 then b
  else { b with entries :=
          b.entries.drop ((b.entries.length : Int) - limit).toNat }

/-- Store invariant: every existing key was allocated by a past
`NextSequence` call, hence is at most the current counter value.  It
holds for the empty bucket and is preserved by every operation. -/
def keysBounded (b : HistBucket) : Prop :=
  ∀ kv ∈ b.entries, kv.1 ≤ b.nextSeq

instance (b : HistBucket) : Decidable (keysBounded b) := by
  unfold keysBounded
  infer_instance

theorem putByKey_append (l : List (Nat × HistoryMessage)) (k : Nat)
    (m : HistoryMessage) (h : ∀ kv ∈ l, kv.1 < k) :
    putByKey l k m = l ++ [(k, m)] := by
  induction l with
  | nil => rfl
  | cons kv rest ih =>
      obtain ⟨k2, m2⟩ := kv
      have hk2 : k2 < k := h (k2, m2) (List.mem_cons_self _ _)
      unfold putByKey
      have h1 : ¬ k < k2 := by omega
      have h2 : ¬ k = k2 := by omega
      simp only [h1, if_false, h2]
      rw [ih (fun kv hkv => h kv (List.mem_cons_of_mem _ hkv))]
      simp

theorem load_add (b : HistBucket) (m : HistoryMessage) (h : keysBounded b) :
    LoadProjectHistory (AddHistoryMessage b m) =
      LoadProjectHistory b ++ [m] := by
  unfold LoadProjectHistory AddHistoryMessage
  rw [putByKey_append b.entries (b.nextSeq + 1) m
        (fun kv hkv => by have := h kv hkv; omega)]
  simp

theorem add_nextSeq (b : HistBucket) (m : HistoryMessage) :
    (AddHistoryMessage b m).nextSeq = b.nextSeq + 1 := rfl

theorem add_entries (b : HistBucket) (m : HistoryMessage)
    (h : keysBounded b) :
    (AddHistoryMessage b m).entries = b.entries ++ [(b.nextSeq + 1, m)] :=
  putByKey_append b.entries (b.nextSeq + 1) m
    (fun kv hkv => by have := h kv hkv; omega)

theorem add_keysBounded (b : HistBucket) (m : HistoryMessage)
    (h : keysBounded b) : keysBounded (AddHistoryMessage b m) := by
  intro kv hkv
  rw [add_entries b m h] at hkv
  rw [add_nextSeq]
  rcases List.mem_append.mp hkv with h1 | h1
  · have := h kv h1
    omega
  · have : kv = (b.nextSeq + 1, m) := by simpa using h1
    subst this
    simp

theorem trim_keysBounded (b : HistBucket) (limit : Int)
    (h : keysBounded b) : keysBounded (TrimProjectHistory b limit) := by
  unfold TrimProjectHistory
  split
  · exact h
  · split
    · exact h
    · intro kv hkv
      exact h kv (List.mem_of_mem_drop hkv)

theorem load_trim (b : HistBucket) (limit : Int) (hpos : 0 < limit) :
    LoadProjectHistory (TrimProjectHistory b limit) =
      (LoadProjectHistory b).drop
        ((LoadProjectHistory b).length - limit.toNat) := by
  unfold TrimProjectHistory LoadProjectHistory
  have h1 : ¬ limit ≤ 0 := by omega
  simp only [h1, if_false]
  split
  · rename_i hexc
    have hlen : b.entries.length ≤ limit.toNat := by omega
    have : (b.entries.map Prod.snd).length - limit.toNat = 0 := by
      simp only [List.length_map]
      omega
    rw [this, List.drop_zero]
  · rename_i hexc
    rw [List.map_drop]
    congr 1
    simp only [List.length_map]
    omega

/--
C9 — For every project history bucket satisfying the key-allocation
invariant and every history message `m`, `AddHistoryMessage` followed by
`LoadProjectHistory` returns exactly the previously stored entries, in
insertion order, with `m` appended as the last element — so `m`'s role,
author id, author display name, timestamp and content are preserved
exactly and all prior entries are unchanged.
-/
theorem claim_C9 (b : HistBucket) (m : HistoryMessage)
    (h : keysBounded b) :
    LoadProjectHistory (AddHistoryMessage b m) =
      LoadProjectHistory b ++ [m] ∧
    (LoadProjectHistory (AddHistoryMessage b m)).getLast? = some m :=
  ⟨load_add b m h, by rw [load_add b m h]; simp⟩

/-- Witness for C9 on a concrete two-entry bucket. -/
theorem claim_C9_witness :
    LoadProjectHistory (AddHistoryMessage
        ⟨2, [(1, ⟨"user", 7, "alice", 100, "hi"⟩),
             (2, ⟨"assistant", 0, "ChatGPT gpt-5", 101, "hello"⟩)]⟩
        ⟨"user", 7, "alice", 102, "bye"⟩) =
      LoadProjectHistory
        ⟨2, [(1, ⟨"user", 7, "alice", 100, "hi"⟩),
             (2, ⟨"assistant", 0, "ChatGPT gpt-5", 101, "hello"⟩)]⟩ ++
        [⟨"user", 7, "alice", 102, "bye"⟩] ∧
    (LoadProjectHistory (AddHistoryMessage
        ⟨2, [(1, ⟨"user", 7, "alice", 100, "hi"⟩),
             (2, ⟨"assistant", 0, "ChatGPT gpt-5", 101, "hello"⟩)]⟩
        ⟨"user", 7, "alice", 102, "bye"⟩)).getLast? =
      some ⟨"user", 7, "alice", 102, "bye"⟩ :=
  claim_C9 _ _ (by decide)

/-! ### One conversational turn (`HandleUpdate`, conversational tail)

After the command/pending dispatch, `HandleUpdate` resolves the mapped
project, loads its configuration, builds the model input, appends the
user-side history entries (history limit permitting), sends a progress
message, launches the model call on its own goroutine, waits for the
result, and reconciles it into edits/sends and an assistant-side history
entry plus a trim.  `TurnCtx` carries the values that the code derives
before this sequence starts. -/

/-- Result of the asynchronous OpenAI call (`gptResult`): `failure e`
when `openAIResponses` returned error `e`, otherwise the reply text. -/
inductive CallResult where
  | failure (errText : String)
  | success (reply : String)
deriving DecidableEq

structure TurnCtx where
  /-- the project history limit, `LoadHistoryLimit` (Go `int`) -/
  limit : Int
  /-- the effective text: `msg.Text` falling back to `msg.Caption` -/
  text : String
  /-- the audio transcript; `""` when absent or failed -/
  transcribed : String
  /-- whether `msg.Photo` is non-empty -/
  hasPhoto : Bool
  /-- the sender id `msg.From.ID` -/
  userID : Int
  /-- the display name: `msg.From.Username` falling back to `FirstName` -/
  userName : String
  /-- the timestamp `now.Unix()` taken before the user-side appends -/
  whenUnix : Int
  /-- the resolved model id -/
  model : String
  /-- the model call result -/
  outcome : CallResult
  /-- the timestamp `time.Now().Unix()` taken at the assistant-side append -/
  replyUnix : Int
deriving DecidableEq

/-- The constant `maxMessageLen = 4000` of `HandleUpdate`. -/
def maxMessageLen : Nat := 4000

def userTextEntry (t : TurnCtx) : HistoryMessage :=
  ⟨"user", t.userID, t.userName, t.whenUnix, t.text⟩

def transcriptEntry (t : TurnCtx) : HistoryMessage :=
  ⟨"user", t.userID, t.userName, t.whenUnix,
    "(Transcribed audio) " ++ t.transcribed⟩

def photoEntry (t : TurnCtx) : HistoryMessage :=
  ⟨"user", t.userID, t.userName, t.whenUnix,
    "(User has attached some image)"⟩

/-- The user-side history entries appended at handler.go:613-642, in
program order: text (if non-empty), transcript (if non-empty), image
placeholder (if a photo is attached). -/
def userEntries (t : TurnCtx) : List HistoryMessage :=
  (if t.text = "" then [] else [userTextEntry t]) ++
  (if t.transcribed = "" then [] else [transcriptEntry t]) ++
  (if t.hasPhoto then [photoEntry t] else [])

/-- The assistant-side entry recorded on failure: content is the
progress-message text `"OpenAI error: " + err`, author `ChatGPT <model>`. -/
def assistantErrorEntry (t : TurnCtx) (e : String) : HistoryMessage :=
  ⟨"assistant", 0, "ChatGPT " ++ t.model, t.replyUnix, "OpenAI error: " ++ e⟩

/-- The assistant-side entry recorded on success: the entire unchunked
reply text. -/
def assistantReplyEntry (t : TurnCtx) (reply : String) : HistoryMessage :=
  ⟨"assistant", 0, "ChatGPT " ++ t.model, t.replyUnix, reply⟩

/-- handler.go:613-642: the user-side appends, in order. -/
def recordUserEntries (t : TurnCtx) (b : HistBucket) : HistBucket :=
  (userEntries t).foldl AddHistoryMessage b

/--
The effect of one conversational turn on the project history sub-bucket
(`HandleUpdate` lines 613-642 and 720-771): user-side appends happen
only when `limit > 0`; on failure the error entry is appended and the
history trimmed; on success the reply is chunked, an empty chunk list
returns before the history write, otherwise the full reply is appended
and the history trimmed.
-/
def processTurn (b : HistBucket) (t : TurnCtx) : HistBucket :=
  (fun b1 =>
    match t.outcome with
    | CallResult.failure e =>
        if 0 < t.limit then
          TrimProjectHistory (AddHistoryMessage b1 (assistantErrorEntry t e))
            t.limit
        else b1
    | CallResult.success reply =>
        if splitMessage reply maxMessageLen = [] then b1
        else if 0 < t.limit then
          TrimProjectHistory (AddHistoryMessage b1 (assistantReplyEntry t reply))
            t.limit
        else b1)
  (if 0 < t.limit then recordUserEntries t b else b)

/-- All history entries a turn appends (user-side plus, when the call
failed or the reply was non-empty, the assistant-side entry). -/
def turnEntries (t : TurnCtx) : List HistoryMessage :=
  userEntries t ++
  (match t.outcome with
   | CallResult.failure e => [assistantErrorEntry t e]
   | CallResult.success reply =>
       if splitMessage reply maxMessageLen = [] then []
       else [assistantReplyEntry t reply])

/-- Whether a call result reaches the assistant-side history write: the
call failed, or it succeeded with a non-empty chunk list. -/
def callRecords : CallResult → Bool
  | CallResult.failure _ => true
  | CallResult.success reply => !(splitMessage reply maxMessageLen).isEmpty

/-- Whether the turn reaches the assistant-side history write. -/
def recordsAssistant (t : TurnCtx) : Bool :=
  callRecords t.outcome

/-! ### The observable action trace of a turn

`BotOp` records the transport and storage actions of the conversational
tail in program order.  `dispatchCall` marks the `go func` launch of the
OpenAI request, `callResolved` the receive on `resultCh`.  The periodic
progress edits of the ticker loop are timing-dependent and touch neither
history nor the reply messages, so they are not part of the trace. -/

inductive BotOp where
  | sendMsg (chatID : Int) (threadID : Int) (text : String)
      (replyTo : Option Int)
  | editMsg (chatID : Int) (messageID : Int) (text : String)
  | appendHist (m : HistoryMessage)
  | trimHist (limit : Int)
  | dispatchCall
  | callResolved
deriving DecidableEq

structure TraceCtx where
  turn : TurnCtx
  chatID : Int
  topicID : Int
  /-- id of the incoming Telegram message -/
  msgID : Int
  /-- id Telegram assigned to the progress message -/
  progressMsgID : Int
deriving DecidableEq

/--
The actions after `res = <-resultCh` (handler.go:720-771): on failure,
the progress message is edited to the error text and — history limit
permitting — the error entry appended and the history trimmed; on
success, the reply is chunked, an empty chunk list returns at once,
otherwise the first chunk edits the progress message in place, every
later chunk is sent as a plain new message carrying only chat id, topic
thread id and text (no reply target), and then — history limit
permitting — the full reply is appended and the history trimmed.
-/
def outcomeOps (c : TraceCtx) : List BotOp :=
  match c.turn.outcome with
  | CallResult.failure e =>
      BotOp.editMsg c.chatID c.progressMsgID ("OpenAI error: " ++ e) ::
      (if 0 < c.turn.limit then
         [BotOp.appendHist (assistantErrorEntry c.turn e),
          BotOp.trimHist c.turn.limit]
       else [])
  | CallResult.success reply =>
      match splitMessage reply maxMessageLen with
      | [] => []
      | first :: rest =>
          BotOp.editMsg c.chatID c.progressMsgID first ::
          (rest.map (fun chunk =>
             BotOp.sendMsg c.chatID c.topicID chunk none) ++
           (if 0 < c.turn.limit then
              [BotOp.appendHist (assistantReplyEntry c.turn reply),
               BotOp.trimHist c.turn.limit]
            else []))

/--
The ordered trace of the conversational tail of `HandleUpdate`
(lines 613-771): user-side history appends, the progress message (a
reply to the incoming message), the asynchronous call dispatch, the
resolution, and then the post-resolution actions `outcomeOps`.
-/
def turnTrace (c : TraceCtx) : List BotOp :=
  (if 0 < c.turn.limit then (userEntries c.turn).map BotOp.appendHist
   else []) ++
  [BotOp.sendMsg c.chatID c.topicID "Sending to ChatGPT..." (some c.msgID),
   BotOp.dispatchCall, BotOp.callResolved] ++
  outcomeOps c

def isDispatch : BotOp → Bool
  | BotOp.dispatchCall => true
  | _ => false

def isResolved : BotOp → Bool
  | BotOp.callResolved => true
  | _ => false

def isAppend : BotOp → Bool
  | BotOp.appendHist _ => true
  | _ => false

/-- The trace portion strictly before the model call is dispatched. -/
def opsBeforeDispatch (tr : List BotOp) : List BotOp :=
  tr.takeWhile (fun op => !(isDispatch op))

/-- The trace portion strictly before the model call resolves. -/
def opsBeforeResolve (tr : List BotOp) : List BotOp :=
  tr.takeWhile (fun op => !(isResolved op))

/-- The trace portion strictly after the model call resolves. -/
def opsAfterResolve (tr : List BotOp) : List BotOp :=
  (tr.dropWhile (fun op => !(isResolved op))).tail

/-- The history appends among a list of operations. -/
def histAppends (tr : List BotOp) : List BotOp :=
  tr.filter isAppend

/-! ### History-limit invariant (C1) -/

/-- Trimming at the list level: keep only the (at most) `L` most
recently appended entries. -/
def listTrim (L : Nat) (l : List HistoryMessage) : List HistoryMessage :=
  l.drop (l.length - L)

theorem listTrim_length (L : Nat) (l : List HistoryMessage) :
    (listTrim L l).length ≤ L := by
  unfold listTrim
  rw [List.length_drop]
  omega

theorem listTrim_drop (L m : Nat) (l : List HistoryMessage)
    (h : m ≤ l.length - L) : listTrim L (l.drop m) = listTrim L l := by
  unfold listTrim
  rw [List.drop_drop, List.length_drop]
  congr 1
  omega

theorem listTrim_trim_append (L : Nat) (a b : List HistoryMessage) :
    listTrim L (listTrim L a ++ b) = listTrim L (a ++ b) := by
  show listTrim L (a.drop (a.length - L) ++ b) = listTrim L (a ++ b)
  rw [← List.drop_append_of_le_length (by omega : a.length - L ≤ a.length)]
  apply listTrim_drop
  rw [List.length_append]
  omega

theorem load_trim_listTrim (b : HistBucket) (limit : Int)
    (hpos : 0 < limit) :
    LoadProjectHistory (TrimProjectHistory b limit) =
      listTrim limit.toNat (LoadProjectHistory b) := by
  rw [load_trim b limit hpos]
  rfl

theorem load_foldl_add (ms : List HistoryMessage) :
    ∀ b : HistBucket, keysBounded b →
      LoadProjectHistory (ms.foldl AddHistoryMessage b) =
        LoadProjectHistory b ++ ms ∧
      keysBounded (ms.foldl AddHistoryMessage b) := by
  induction ms with
  | nil => intro b hb; exact ⟨by simp, hb⟩
  | cons m rest ih =>
      intro b hb
      have hb2 := add_keysBounded b m hb
      obtain ⟨h1, h2⟩ := ih (AddHistoryMessage b m) hb2
      refine ⟨?_, h2⟩
      simp only [List.foldl_cons]
      rw [h1, load_add b m hb]
      simp

theorem processTurn_load (b : HistBucket) (t : TurnCtx)
    (hb : keysBounded b) (hL : 0 < t.limit)
    (hrec : recordsAssistant t = true) :
    LoadProjectHistory (processTurn b t) =
      listTrim t.limit.toNat (LoadProjectHistory b ++ turnEntries t) ∧
    keysBounded (processTurn b t) := by
  obtain ⟨hload1, hb1⟩ := load_foldl_add (userEntries t) b hb
  unfold processTurn recordUserEntries
  rw [if_pos hL]
  unfold recordsAssistant at hrec
  unfold turnEntries
  cases houtcome : t.outcome with
  | failure e =>
      simp only
      rw [if_pos hL]
      have hb2 := add_keysBounded _ (assistantErrorEntry t e) hb1
      constructor
      · rw [load_trim_listTrim _ _ hL,
            load_add _ (assistantErrorEntry t e) hb1,
            hload1, List.append_assoc]
      · exact trim_keysBounded _ _ hb2
  | success reply =>
      rw [houtcome] at hrec
      have hne : ¬ splitMessage reply maxMessageLen = [] := by
        intro hcontra
        simp only [callRecords] at hrec
        rw [hcontra] at hrec
        simp at hrec
      simp only
      rw [if_neg hne, if_pos hL, if_neg hne]
      have hb2 := add_keysBounded _ (assistantReplyEntry t reply) hb1
      constructor
      · rw [load_trim_listTrim _ _ hL,
            load_add _ (assistantReplyEntry t reply) hb1,
            hload1, List.append_assoc]
      · exact trim_keysBounded _ _ hb2

/-- The full append stream of a sequence of turns. -/
def allTurnEntries (ts : List TurnCtx) : List HistoryMessage :=
  (ts.map turnEntries).flatten

theorem processTurns_load (L : Int) (hL : 0 < L) (ts : List TurnCtx)
    (hlim : ∀ t ∈ ts, t.limit = L)
    (hrec : ∀ t ∈ ts, recordsAssistant t = true) :
    LoadProjectHistory (ts.foldl processTurn emptyBucket) =
      listTrim L.toNat (allTurnEntries ts) ∧
    keysBounded (ts.foldl processTurn emptyBucket) := by
  induction ts using List.reverseRecOn with
  | nil =>
      constructor
      · simp [listTrim, allTurnEntries, LoadProjectHistory, emptyBucket]
      · intro kv hkv
        simp [emptyBucket] at hkv
  | append_singleton l a ih =>
      have hlim2 : ∀ t ∈ l, t.limit = L :=
        fun t ht => hlim t (List.mem_append.mpr (Or.inl ht))
      have hrec2 : ∀ t ∈ l, recordsAssistant t = true :=
        fun t ht => hrec t (List.mem_append.mpr (Or.inl ht))
      obtain ⟨ih1, ih2⟩ := ih hlim2 hrec2
      have ha : a.limit = L :=
        hlim a (List.mem_append.mpr (Or.inr (List.mem_singleton_self a)))
      have hra : recordsAssistant a = true :=
        hrec a (List.mem_append.mpr (Or.inr (List.mem_singleton_self a)))
      rw [List.foldl_append]
      simp only [List.foldl_cons, List.foldl_nil]
      obtain ⟨h1, h2⟩ :=
        processTurn_load (l.foldl processTurn emptyBucket) a ih2
          (by rw [ha]; exact hL) hra
      refine ⟨?_, h2⟩
      rw [h1, ih1, ha, listTrim_trim_append]
      unfold allTurnEntries
      simp

/--
C1 (amended) — For every configured history limit `L > 0` and every
sequence of turns that each end in a recorded assistant entry (a model
error or a non-empty reply), starting from an empty history: the stored
count never exceeds `L`, and the retained entries are exactly the (at
most) `L` most-recently-appended entries of the full append stream, in
insertion order, oldest removed first.  (The original claim quantified
over all turns; a successful turn with an empty reply returns before the
trim and can leave the count above `L` — see the counterexample.)
-/
theorem claim_C1 (L : Int) (hL : 0 < L) (ts : List TurnCtx)
    (hlim : ∀ t ∈ ts, t.limit = L)
    (hrec : ∀ t ∈ ts, recordsAssistant t = true) :
    (CountProjectHistory (ts.foldl processTurn emptyBucket) : Int) ≤ L ∧
    LoadProjectHistory (ts.foldl processTurn emptyBucket) =
      (allTurnEntries ts).drop ((allTurnEntries ts).length - L.toNat) := by
  obtain ⟨h1, _⟩ := processTurns_load L hL ts hlim hrec
  constructor
  · have hcnt : CountProjectHistory (ts.foldl processTurn emptyBucket) =
        (LoadProjectHistory (ts.foldl processTurn emptyBucket)).length := by
      unfold CountProjectHistory LoadProjectHistory
      simp
    rw [hcnt, h1]
    have := listTrim_length L.toNat (allTurnEntries ts)
    omega
  · exact h1

/-- Witness for (amended) C1: limit 2, then a successful turn and a
failed turn, each recording an assistant entry. -/
theorem claim_C1_witness :
    (CountProjectHistory
        ([⟨2, "hi", "", false, 7, "alice", 100, "gpt-5",
           CallResult.success "ok", 101⟩,
          ⟨2, "more", "", false, 7, "alice", 102, "gpt-5",
           CallResult.failure "boom", 103⟩].foldl processTurn emptyBucket)
      : Int) ≤ 2 ∧
    LoadProjectHistory
        ([⟨2, "hi", "", false, 7, "alice", 100, "gpt-5",
           CallResult.success "ok", 101⟩,
          ⟨2, "more", "", false, 7, "alice", 102, "gpt-5",
           CallResult.failure "boom", 103⟩].foldl processTurn emptyBucket) =
      (allTurnEntries
          [⟨2, "hi", "", false, 7, "alice", 100, "gpt-5",
            CallResult.success "ok", 101⟩,
           ⟨2, "more", "", false, 7, "alice", 102, "gpt-5",
            CallResult.failure "boom", 103⟩]).drop
        ((allTurnEntries
            [⟨2, "hi", "", false, 7, "alice", 100, "gpt-5",
              CallResult.success "ok", 101⟩,
             ⟨2, "more", "", false, 7, "alice", 102, "gpt-5",
              CallResult.failure "boom", 103⟩]).length - (2 : Int).toNat) :=
  claim_C1 2 (by decide) _ (by decide) (by decide)

/-- A turn whose model call succeeds with reply `"ok"` under limit 1. -/
def c1TurnOk : TurnCtx :=
  ⟨1, "hi", "", false, 7, "alice", 100, "gpt-5", CallResult.success "ok", 101⟩

/-- A turn whose model call succeeds with an empty reply under limit 1:
the handler returns before the assistant append and the trim. -/
def c1TurnEmpty : TurnCtx :=
  ⟨1, "again", "", false, 7, "alice", 102, "gpt-5", CallResult.success "", 103⟩

/--
Counterexample to C1 as stated: with history limit `L = 1`, after the
two concrete turns `c1TurnOk` and `c1TurnEmpty` (both processed under
limit 1), the stored history holds 2 entries, exceeding the limit —
the empty-reply turn appended the user entry but returned before the
trim.
-/
theorem claim_C1_counterexample :
    c1TurnOk.limit = 1 ∧ c1TurnEmpty.limit = 1 ∧
    ¬ ((CountProjectHistory
          ([c1TurnOk, c1TurnEmpty].foldl processTurn emptyBucket) : Int)
        ≤ 1) := by
  refine ⟨rfl, rfl, ?_⟩
  decide

/-! ### Trace ordering (C3, C4, C10) -/

theorem takeWhile_append_all {α : Type} {p : α → Bool} (xs ys : List α)
    (h : ∀ x ∈ xs, p x = true) :
    (xs ++ ys).takeWhile p = xs ++ ys.takeWhile p := by
  induction xs with
  | nil => simp
  | cons x rest ih =>
      have hx : p x = true := h x (List.mem_cons_self _ _)
      simp only [List.cons_append, List.takeWhile_cons, hx, if_true]
      rw [ih (fun a ha => h a (List.mem_cons_of_mem _ ha))]

theorem dropWhile_append_all {α : Type} {p : α → Bool} (xs ys : List α)
    (h : ∀ x ∈ xs, p x = true) :
    (xs ++ ys).dropWhile p = ys.dropWhile p := by
  induction xs with
  | nil => simp
  | cons x rest ih =>
      have hx : p x = true := h x (List.mem_cons_self _ _)
      simp only [List.cons_append, List.dropWhile_cons, hx, if_true]
      exact ih (fun a ha => h a (List.mem_cons_of_mem _ ha))

theorem userEntries_role (t : TurnCtx) :
    ∀ m ∈ userEntries t, m.Role = "user" := by
  intro m hm
  unfold userEntries at hm
  rcases List.mem_append.mp hm with h | h1
  · rcases List.mem_append.mp h with h1 | h1
    · by_cases hc : t.text = ""
      · rw [if_pos hc] at h1
        simp at h1
      · rw [if_neg hc] at h1
        have : m = userTextEntry t := by simpa using h1
        subst this
        rfl
    · by_cases hc : t.transcribed = ""
      · rw [if_pos hc] at h1
        simp at h1
      · rw [if_neg hc] at h1
        have : m = transcriptEntry t := by simpa using h1
        subst this
        rfl
  · by_cases hc : t.hasPhoto
    · rw [if_pos hc] at h1
      have : m = photoEntry t := by simpa using h1
      subst this
      rfl
    · rw [if_neg hc] at h1
      simp at h1

/-- The trace prefix before the call dispatch: the user-side appends and
the progress message. -/
theorem turnTrace_before_dispatch (c : TraceCtx) :
    opsBeforeDispatch (turnTrace c) =
      (if 0 < c.turn.limit then (userEntries c.turn).map BotOp.appendHist
       else []) ++
      [BotOp.sendMsg c.chatID c.topicID "Sending to ChatGPT..."
        (some c.msgID)] := by
  unfold opsBeforeDispatch turnTrace
  rw [List.append_assoc, takeWhile_append_all]
  · simp [List.takeWhile_cons, isDispatch]
  · intro x hx
    split at hx
    · rcases List.mem_map.mp hx with ⟨m, _, hm⟩
      subst hm
      rfl
    · simp at hx

/-- The trace suffix after the call resolves is exactly `outcomeOps`. -/
theorem turnTrace_after_resolve (c : TraceCtx) :
    opsAfterResolve (turnTrace c) = outcomeOps c := by
  unfold opsAfterResolve turnTrace
  rw [List.append_assoc, dropWhile_append_all]
  · simp [List.dropWhile_cons, isResolved]
  · intro x hx
    split at hx
    · rcases List.mem_map.mp hx with ⟨m, _, hm⟩
      subst hm
      rfl
    · simp at hx

theorem outcomeOps_append_role (c : TraceCtx) :
    ∀ m, BotOp.appendHist m ∈ outcomeOps c → m.Role = "assistant" := by
  intro m hm
  unfold outcomeOps at hm
  cases houtcome : c.turn.outcome with
  | failure e =>
      rw [houtcome] at hm
      simp only at hm
      rcases List.mem_cons.mp hm with h | h
      · simp at h
      · split at h
        · rcases List.mem_cons.mp h with h1 | h1
          · have : m = assistantErrorEntry c.turn e := by simpa using h1
            subst this
            rfl
          · simp at h1
        · simp at h
  | success reply =>
      rw [houtcome] at hm
      simp only at hm
      cases hsp : splitMessage reply maxMessageLen with
      | nil =>
          rw [hsp] at hm
          simp at hm
      | cons first rest =>
          rw [hsp] at hm
          simp only at hm
          rcases List.mem_cons.mp hm with h | h
          · simp at h
          · rcases List.mem_append.mp h with h1 | h1
            · rcases List.mem_map.mp h1 with ⟨chunk, _, hc⟩
              simp at hc
            · split at h1
              · rcases List.mem_cons.mp h1 with h2 | h2
                · have : m = assistantReplyEntry c.turn reply := by
                    simpa using h2
                  subst this
                  rfl
                · simp at h2
              · simp at h1

/--
C3 (amended) — In every conversational turn, the user-side history
entries (user text, transcript, image placeholder) are appended before
the model call is even dispatched, and every history entry appended
after the call resolves is the assistant-role entry: assistant entries
are only written post-resolution, while user entries are written
speculatively before the call.  (The original claim — no entry at all is
appended until the call returns — is refuted by the counterexample.)
-/
theorem claim_C3 (c : TraceCtx) :
    (∀ m, BotOp.appendHist m ∈ opsBeforeDispatch (turnTrace c) →
      m.Role = "user") ∧
    (∀ m, BotOp.appendHist m ∈ opsAfterResolve (turnTrace c) →
      m.Role = "assistant") := by
  constructor
  · intro m hm
    rw [turnTrace_before_dispatch] at hm
    rcases List.mem_append.mp hm with h | h
    · split at h
      · rcases List.mem_map.mp h with ⟨x, hx, hmx⟩
        have : x = m := by simpa using hmx
        subst this
        exact userEntries_role c.turn x hx
      · simp at h
    · simp at h
  · intro m hm
    rw [turnTrace_after_resolve] at hm
    exact outcomeOps_append_role c m hm

/-- Witness for (amended) C3 at a failing turn with limit 1 and user
text `"hi"`. -/
theorem claim_C3_witness :
    (userTextEntry ⟨1, "hi", "", false, 7, "alice", 100, "gpt-5",
        CallResult.failure "boom", 103⟩).Role = "user" ∧
    (assistantErrorEntry ⟨1, "hi", "", false, 7, "alice", 100, "gpt-5",
        CallResult.failure "boom", 103⟩ "boom").Role = "assistant" :=
  ⟨(claim_C3 ⟨⟨1, "hi", "", false, 7, "alice", 100, "gpt-5",
      CallResult.failure "boom", 103⟩, 1, 0, 3, 5⟩).1 _ (by decide),
   (claim_C3 ⟨⟨1, "hi", "", false, 7, "alice", 100, "gpt-5",
      CallResult.failure "boom", 103⟩, 1, 0, 3, 5⟩).2 _ (by decide)⟩

/--
Counterexample to C3 as stated: in the concrete turn below (history
limit 1, user text `"hi"`), a history append occurs strictly before the
model call resolves — the history store is mutated speculatively.
-/
theorem claim_C3_counterexample :
    histAppends (opsBeforeResolve (turnTrace
      ⟨⟨1, "hi", "", false, 7, "alice", 100, "gpt-5",
        CallResult.success "ok", 101⟩, 1, 0, 3, 5⟩)) ≠ [] := by
  decide

/--
C10 — If the completion call succeeds but the reply text is empty, the
chunk list is empty and the handler returns at once: no edit, no send,
no assistant-role history append and no trim happen after the call
resolves, even when the history limit is positive.  Failed calls, by
contrast, are always recorded when the limit is positive: the
post-resolution actions are exactly the error edit, the assistant error
append and the trim.
-/
theorem claim_C10 (c : TraceCtx) :
    (c.turn.outcome = CallResult.success "" →
      opsAfterResolve (turnTrace c) = []) ∧
    (∀ e, c.turn.outcome = CallResult.failure e → 0 < c.turn.limit →
      opsAfterResolve (turnTrace c) =
        [BotOp.editMsg c.chatID c.progressMsgID ("OpenAI error: " ++ e),
         BotOp.appendHist (assistantErrorEntry c.turn e),
         BotOp.trimHist c.turn.limit]) := by
  constructor
  · intro h
    rw [turnTrace_after_resolve]
    unfold outcomeOps
    rw [h]
    have hempty : splitMessage "" maxMessageLen = [] := rfl
    simp [hempty]
  · intro e h hL
    rw [turnTrace_after_resolve]
    unfold outcomeOps
    rw [h]
    simp [if_pos hL]

/-- Witness for C10: an empty-reply success under limit 3 leaves no
post-resolution action; a failed call under limit 2 is recorded. -/
theorem claim_C10_witness :
    opsAfterResolve (turnTrace
      ⟨⟨3, "hi", "", false, 7, "alice", 100, "gpt-5",
        CallResult.success "", 101⟩, 1, 0, 3, 5⟩) = [] ∧
    opsAfterResolve (turnTrace
      ⟨⟨2, "hi", "", false, 7, "alice", 100, "gpt-5",
        CallResult.failure "boom", 101⟩, 1, 0, 3, 5⟩) =
      [BotOp.editMsg 1 5 "OpenAI error: boom",
       BotOp.appendHist (assistantErrorEntry
         ⟨2, "hi", "", false, 7, "alice", 100, "gpt-5",
          CallResult.failure "boom", 101⟩ "boom"),
       BotOp.trimHist 2] :=
  ⟨(claim_C10 ⟨⟨3, "hi", "", false, 7, "alice", 100, "gpt-5",
      CallResult.success "", 101⟩, 1, 0, 3, 5⟩).1 rfl,
   (claim_C10 ⟨⟨2, "hi", "", false, 7, "alice", 100, "gpt-5",
      CallResult.failure "boom", 101⟩, 1, 0, 3, 5⟩).2 "boom" rfl (by decide)⟩

/-! ### Chunk delivery (C4)

The repository's own test `TestResponseHandling_LongMessageSplit`
(handler test file) requires every chunk after the first to be sent with
`ReplyParameters.MessageID` equal to the previous chunk's message id.
The handler, however, sends those chunks with only chat id, topic thread
id and text — no `ReplyParameters` at all.  The theorem below evaluates
the embedded handler on a 4001-rune reply (two chunks): the first chunk
is delivered by editing the progress message in place, and the second
chunk is sent with reply target `none`. -/

/-- A successful reply of 4001 `a` runes — just over the 4000-rune chunk
budget, so it splits into two chunks. -/
def c4Reply : String := String.mk (List.replicate 4001 'a')

/-- The turn delivering `c4Reply` in chat 1 (no topic), progress message
id 5, history disabled. -/
def c4Ctx : TraceCtx :=
  ⟨⟨0, "hi", "", false, 7, "alice", 100, "gpt-5",
    CallResult.success c4Reply, 101⟩, 1, 0, 3, 5⟩

theorem c4_splitRunes :
    splitRunes (List.replicate 4001 'a') 4000 =
      [List.replicate 4000 'a', List.replicate 1 'a'] := by
  rw [show (4001 : Nat) = 4000 + 1 from rfl, List.replicate_succ,
      splitRunes_cons _ _ _ (by norm_num),
      ← List.replicate_succ, List.take_replicate, List.drop_replicate]
  norm_num
  decide

theorem c4_split :
    splitMessage c4Reply maxMessageLen =
      [String.mk (List.replicate 4000 'a'), String.mk (List.replicate 1 'a')] := by
  show (splitRunes (List.replicate 4001 'a') 4000).map _ = _
  rw [c4_splitRunes]
  rfl

/--
C4 — the code deviates from the claim (and from the repository's own
test `TestResponseHandling_LongMessageSplit`): on a successful reply of
4001 runes split into two chunks, the first chunk does replace the
progress message via an edit, but the second chunk is sent as a plain
message whose reply target is `none` instead of the message id of the
previous chunk.
-/
theorem claim_C4 :
    opsAfterResolve (turnTrace c4Ctx) =
      [BotOp.editMsg 1 5 (String.mk (List.replicate 4000 'a')),
       BotOp.sendMsg 1 0 (String.mk (List.replicate 1 'a')) none] := by
  rw [turnTrace_after_resolve]
  unfold outcomeOps
  rw [show c4Ctx.turn.outcome = CallResult.success c4Reply from rfl]
  simp [c4_split, c4Ctx]

/-! ### Web-search tool construction (C8)

`HandleUpdate` lines 661-684: inside the request goroutine, when the
stored web-search setting is not `"off"`, exactly one
`WebSearchPreview` tool is attached; its `SearchContextSize` defaults to
high and is switched to medium/low/high for those literal settings, and
it always carries the fixed approximate user location
(Oulu, FI, Europe/Helsinki). -/

inductive ContextSize where
  | low
  | medium
  | high
deriving DecidableEq

structure UserLocation where
  city : String
  country : String
  timezone : String
  /-- the marker `Type: constant.Approximate` -/
  approximate : Bool
deriving DecidableEq

structure WebSearchTool where
  searchContextSize : ContextSize
  userLocation : UserLocation
deriving DecidableEq

/-- The fixed approximate user-location hint. -/
def fixedUserLocation : UserLocation := ⟨"Oulu", "FI", "Europe/Helsinki", true⟩

/-- The `tools` slice built by the goroutine: empty for `"off"`,
otherwise one web-search tool; `size` starts at high and the switch
re-assigns it for `"medium"`, `"low"` and `"high"`. -/
def buildWebSearchTools (webSearchSetting : String) : List WebSearchTool :=
  if webSearchSetting = "off" then []
  else
    [⟨if webSearchSetting = "medium" then ContextSize.medium
      else if webSearchSetting = "low" then ContextSize.low
      else ContextSize.high, fixedUserLocation⟩]

/--
C8 — For every stored web-search mode `m`: `off` yields no tool;
`low`/`medium`/`high` yield exactly one tool whose context size matches
the mode; any other non-off value yields one tool with context size
high; and every emitted tool carries the fixed approximate
user-location hint.
-/
theorem claim_C8 (m : String) :
    (m = "off" → buildWebSearchTools m = []) ∧
    (m = "low" →
      buildWebSearchTools m = [⟨ContextSize.low, fixedUserLocation⟩]) ∧
    (m = "medium" →
      buildWebSearchTools m = [⟨ContextSize.medium, fixedUserLocation⟩]) ∧
    (m = "high" →
      buildWebSearchTools m = [⟨ContextSize.high, fixedUserLocation⟩]) ∧
    (m ≠ "off" → m ≠ "low" → m ≠ "medium" →
      buildWebSearchTools m = [⟨ContextSize.high, fixedUserLocation⟩]) ∧
    (∀ tool ∈ buildWebSearchTools m,
      tool.userLocation = fixedUserLocation) := by
  refine ⟨?_, ?_, ?_, ?_, ?_, ?_⟩
  · intro h; simp [buildWebSearchTools, h]
  · intro h; subst h; rfl
  · intro h; subst h; rfl
  · intro h; subst h; rfl
  · intro h1 h2 h3
    unfold buildWebSearchTools
    rw [if_neg h1, if_neg h3, if_neg h2]
  · intro tool htool
    unfold buildWebSearchTools at htool
    split at htool
    · simp at htool
    · split at htool <;> (try split at htool) <;>
        · rw [List.mem_singleton.mp htool]

/-- Witness for C8 at the unrecognized setting `"bogus"` (defaults to
high) and at `"off"` (no tool). -/
theorem claim_C8_witness :
    buildWebSearchTools "bogus" = [⟨ContextSize.high, fixedUserLocation⟩] ∧
    buildWebSearchTools "off" = [] :=
  ⟨(claim_C8 "bogus").2.2.2.2.1 (by decide) (by decide) (by decide),
   (claim_C8 "off").1 rfl⟩

/-! ### Command and pending-action dispatch (C5, C6, C7)

The remaining claims concern the command handlers (`/newproject`,
`/settopic`) and the pending-action follow-up chain of `HandleUpdate`.
The bolt buckets and the in-memory pending maps are modelled as
association lists representing finite maps: `alookup` is map access,
`aupsert` is `Put` (overwrite), `aerase` is `delete`. -/

def alookup {α β : Type} [DecidableEq α] : List (α × β) → α → Option β
  | [], _ => none
  | (k2, v) :: rest, k => if k = k2 then some v else alookup rest k

def aerase {α β : Type} [DecidableEq α] (l : List (α × β)) (k : α) :
    List (α × β) :=
  l.filter (fun kv => kv.1 ≠ k)

def aupsert {α β : Type} [DecidableEq α] (l : List (α × β)) (k : α)
    (v : β) : List (α × β) :=
  (k, v) :: aerase l k

theorem alookup_cons {α β : Type} [DecidableEq α] (k2 : α) (v : β)
    (rest : List (α × β)) (k : α) :
    alookup ((k2, v) :: rest) k = if k = k2 then some v else alookup rest k :=
  rfl

theorem alookup_aerase_self {α β : Type} [DecidableEq α]
    (l : List (α × β)) (k : α) : alookup (aerase l k) k = none := by
  induction l with
  | nil => rfl
  | cons kv rest ih =>
      obtain ⟨k2, v⟩ := kv
      simp only [aerase, List.filter_cons] at ih ⊢
      by_cases h : k2 = k
      · rw [show (decide ((k2, v).1 ≠ k)) = false by simp [h]]
        exact ih
      · rw [show (decide ((k2, v).1 ≠ k)) = true by simp [h], if_pos rfl,
            alookup_cons, if_neg (fun hc => h hc.symm)]
        exact ih

theorem alookup_aerase_other {α β : Type} [DecidableEq α]
    (l : List (α × β)) (k k2 : α) (h : k2 ≠ k) :
    alookup (aerase l k) k2 = alookup l k2 := by
  induction l with
  | nil => rfl
  | cons kv rest ih =>
      obtain ⟨k3, v⟩ := kv
      simp only [aerase, List.filter_cons] at ih ⊢
      by_cases h3 : k3 = k
      · rw [show (decide ((k3, v).1 ≠ k)) = false by simp [h3],
            alookup_cons, if_neg (fun hc : k2 = k3 => h (hc.trans h3))]
        exact ih
      · rw [show (decide ((k3, v).1 ≠ k)) = true by simp [h3], if_pos rfl,
            alookup_cons, alookup_cons]
        by_cases hk : k2 = k3
        · rw [if_pos hk, if_pos hk]
        · rw [if_neg hk, if_neg hk]
          exact ih

theorem alookup_aupsert_self {α β : Type} [DecidableEq α]
    (l : List (α × β)) (k : α) (v : β) :
    alookup (aupsert l k v) k = some v := by
  unfold aupsert
  rw [alookup_cons, if_pos rfl]

theorem alookup_aupsert_other {α β : Type} [DecidableEq α]
    (l : List (α × β)) (k k2 : α) (v : β) (h : k2 ≠ k) :
    alookup (aupsert l k v) k2 = alookup l k2 := by
  unfold aupsert
  rw [alookup_cons, if_neg h]
  exact alookup_aerase_other l k k2 h

/-- The in-memory per-user pending-action maps of the handler package
(`pendingModel`, `pendingRule`, …), each keyed by `msg.From.ID` and
holding the target project name. -/
structure PendingMaps where
  pendingModel : List (Int × String)
  pendingRule : List (Int × String)
  pendingWebSearch : List (Int × String)
  pendingReasoning : List (Int × String)
  pendingTranscribe : List (Int × String)
  pendingHistLimit : List (Int × String)
  pendingClearHist : List (Int × String)
deriving DecidableEq

/-- The bolt-backed project store: the `projects` key set, the
chat/topic → project `mapping`, the per-project setting buckets and the
per-project history sub-buckets.  Store I/O never fails in the model
(bolt errors are surfaced verbatim by the handler and are outside the
embedding).  The `webSearch`, `reasoning` and `transcribe` buckets are
written by `storage.SaveProjectWebSearch` / `SaveProjectReasoning` /
`SaveProjectTranscribe`, whose bodies are not in the sources at hand;
they are modelled — like the spec's per-field setters and exactly like
the sibling setters `SaveProjectModel` / `SaveProjectInstruction` that
are in the sources — as a `Put` of the value under the project name. -/
structure Store where
  projects : List String
  mapping : List ((Int × Int) × String)
  models : List (String × String)
  rules : List (String × String)
  webSearch : List (String × String)
  reasoning : List (String × String)
  transcribe : List (String × String)
  histLimits : List (String × Int)
  history : List (String × HistBucket)
deriving DecidableEq

/-- Go `storage.SaveProject`: an unconditional `Put` of the name with an
empty value — an existing key is silently overwritten, never an error. -/
def SaveProject (projects : List String) (name : String) : List String :=
  if name ∈ projects then projects else projects ++ [name]

/-- Go `storage.ProjectExists`: whether a `Get` of the name returns a
value. -/
def ProjectExists (projects : List String) (name : String) : Bool :=
  decide (name ∈ projects)

/-- Go `storage.MapTopic`: `Put` under key `chatID:topicID`. -/
def MapTopic (mapping : List ((Int × Int) × String)) (chatID topicID : Int)
    (project : String) : List ((Int × Int) × String) :=
  aupsert mapping (chatID, topicID) project

/-- Go `storage.GetMappedProject`. -/
def GetMappedProject (mapping : List ((Int × Int) × String))
    (chatID topicID : Int) : Option String :=
  alookup mapping (chatID, topicID)

/-- The deterministic reply templates of the dispatch chain, one
constructor per literal format string in the handler. -/
inductive Reply where
  /-- Template: `Usage: /newproject <projectName>` -/
  | usageNewProject
  /-- Template: `Project '<name>' registered.` -/
  | projectRegistered (name : String)
  /-- Template: `Usage: /settopic <projectName>` -/
  | usageSetTopic
  /-- Template: `Project not found.` -/
  | projectNotFound
  /-- Template: `Topic mapped to project '<name>'.` -/
  | topicMapped (name : String)
  /-- Template: `Project '<proj>' uses model '<model>'.` -/
  | modelSet (proj model : String)
  /-- Template: `Instruction saved.` -/
  | instructionSaved
  /-- Template: `Web search for project '<proj>' set to <val>.` -/
  | webSearchSet (proj val : String)
  /-- Template: `Please enter one of: high, medium, low, off.` -/
  | webSearchInvalid
  /-- Template: `Reasoning effort for project '<proj>' set to <val>.` -/
  | reasoningSet (proj val : String)
  /-- Template: `Please enter one of: minimal, low, medium, high.` -/
  | reasoningInvalid
  /-- Template: `Audio transcription for project '<proj>' set to <val>.` -/
  | transcribeSet (proj val : String)
  /-- Template: `Please enter one of: on, off.` -/
  | transcribeInvalid
  /-- Template: `History limit for project '<proj>' set to <limit>.` -/
  | historyLimitSet (proj : String) (limit : Int)
  /-- Template: `Please enter a non-negative integer.` -/
  | historyLimitInvalid
  /-- Template: `Cleared <count> messages from project '<proj>'.` -/
  | cleared (count : Nat) (proj : String)
  /-- Template: `Cancelled.` -/
  | cancelled
deriving DecidableEq

/-- Outcome of running the pending-action chain on a non-command text
message: either one branch handled it (returning the updated pending
maps, the updated store and the reply sent), or the message fell
through to the conversational path — which reads configuration but
writes none of these maps or buckets (its only writes are the history
appends modelled by `processTurn`/`turnTrace`). -/
inductive StepResult where
  | handled (pend : PendingMaps) (store : Store) (reply : Reply)
  | conversational (pend : PendingMaps) (store : Store)
deriving DecidableEq

/-- ASCII whitespace as recognised by `strings.TrimSpace` on the inputs
relevant here. -/
def isSpaceChar (c : Char) : Bool :=
  c = ' ' ∨ c = '\t' ∨ c = '\n' ∨ c = '\r'

/-- Go `strings.TrimSpace` (restricted to ASCII whitespace). -/
def trimSpace (s : String) : String :=
  String.mk (((s.data.dropWhile isSpaceChar).reverse.dropWhile
    isSpaceChar).reverse)

/-- Go `strings.ToLower` (per-rune lowercasing). -/
def toLowerStr (s : String) : String :=
  String.mk (s.data.map Char.toLower)

def digitsToNat : List Char → Option Nat
  | [] => some 0
  | c :: rest =>
      if c.isDigit then
        (digitsToNat rest).map
          (fun n => (c.toNat - '0'.toNat) * (10 ^ rest.length) + n)
      else none

/-- Go `strconv.Atoi` on the inputs relevant here: optional sign, then
decimal digits; anything else is an error (`none`). -/
def atoi (s : String) : Option Int :=
  match s.data with
  | [] => none
  | '-' :: ds =>
      if ds = [] then none else (digitsToNat ds).map (fun n => -(n : Int))
  | '+' :: ds =>
      if ds = [] then none else (digitsToNat ds).map (fun n => (n : Int))
  | ds => (digitsToNat ds).map (fun n => (n : Int))

/-- handler.go:406-416, the `pendingModel` branch. -/
def tryPendingModel (p : PendingMaps) (st : Store) (user : Int)
    (text : String) : Option StepResult :=
  match alookup p.pendingModel user with
  | none => none
  | some proj =>
      if text = "" then none
      else
        some (StepResult.handled
          { p with pendingModel := aerase p.pendingModel user }
          { st with models := aupsert st.models proj (trimSpace text) }
          (Reply.modelSet proj (trimSpace text)))

/-- handler.go:418-428, the `pendingRule` branch. -/
def tryPendingRule (p : PendingMaps) (st : Store) (user : Int)
    (text : String) : Option StepResult :=
  match alookup p.pendingRule user with
  | none => none
  | some proj =>
      if text = "" then none
      else
        some (StepResult.handled
          { p with pendingRule := aerase p.pendingRule user }
          { st with rules := aupsert st.rules proj (trimSpace text) }
          Reply.instructionSaved)

/-- handler.go:430-445, the `pendingWebSearch` branch: the pending entry
is deleted before validation; an out-of-enum value draws the corrective
prompt and writes nothing. -/
def tryPendingWebSearch (p : PendingMaps) (st : Store) (user : Int)
    (text : String) : Option StepResult :=
  match alookup p.pendingWebSearch user with
  | none => none
  | some proj =>
      if text = "" then none
      else
        if toLowerStr (trimSpace text) = "high" ∨
           toLowerStr (trimSpace text) = "medium" ∨
           toLowerStr (trimSpace text) = "low" ∨
           toLowerStr (trimSpace text) = "off" then
          some (StepResult.handled
            { p with pendingWebSearch := aerase p.pendingWebSearch user }
            { st with webSearch :=
                aupsert st.webSearch proj (toLowerStr (trimSpace text)) }
            (Reply.webSearchSet proj (toLowerStr (trimSpace text))))
        else
          some (StepResult.handled
            { p with pendingWebSearch := aerase p.pendingWebSearch user }
            st Reply.webSearchInvalid)

/-- handler.go:447-462, the `pendingReasoning` branch. -/
def tryPendingReasoning (p : PendingMaps) (st : Store) (user : Int)
    (text : String) : Option StepResult :=
  match alookup p.pendingReasoning user with
  | none => none
  | some proj =>
      if text = "" then none
      else
        if toLowerStr (trimSpace text) = "minimal" ∨
           toLowerStr (trimSpace text) = "low" ∨
           toLowerStr (trimSpace text) = "medium" ∨
           toLowerStr (trimSpace text) = "high" then
          some (StepResult.handled
            { p with pendingReasoning := aerase p.pendingReasoning user }
            { st with reasoning :=
                aupsert st.reasoning proj (toLowerStr (trimSpace text)) }
            (Reply.reasoningSet proj (toLowerStr (trimSpace text))))
        else
          some (StepResult.handled
            { p with pendingReasoning := aerase p.pendingReasoning user }
            st Reply.reasoningInvalid)

/-- handler.go:464-479, the `pendingTranscribe` branch. -/
def tryPendingTranscribe (p : PendingMaps) (st : Store) (user : Int)
    (text : String) : Option StepResult :=
  match alookup p.pendingTranscribe user with
  | none => none
  | some proj =>
      if text = "" then none
      else
        if toLowerStr (trimSpace text) = "on" ∨
           toLowerStr (trimSpace text) = "off" then
          some (StepResult.handled
            { p with pendingTranscribe := aerase p.pendingTranscribe user }
            { st with transcribe :=
                aupsert st.transcribe proj (toLowerStr (trimSpace text)) }
            (Reply.transcribeSet proj (toLowerStr (trimSpace text))))
        else
          some (StepResult.handled
            { p with pendingTranscribe := aerase p.pendingTranscribe user }
            st Reply.transcribeInvalid)

/-- handler.go:481-496, the `pendingHistLimit` branch: `strconv.Atoi`
failure or a negative value draws the corrective prompt. -/
def tryPendingHistLimit (p : PendingMaps) (st : Store) (user : Int)
    (text : String) : Option StepResult :=
  match alookup p.pendingHistLimit user with
  | none => none
  | some proj =>
      if text = "" then none
      else
        match atoi (trimSpace text) with
        | none =>
            some (StepResult.handled
              { p with pendingHistLimit := aerase p.pendingHistLimit user }
              st Reply.historyLimitInvalid)
        | some limit =>
            if limit < 0 then
              some (StepResult.handled
                { p with pendingHistLimit := aerase p.pendingHistLimit user }
                st Reply.historyLimitInvalid)
            else
              some (StepResult.handled
                { p with pendingHistLimit := aerase p.pendingHistLimit user }
                { st with histLimits := aupsert st.histLimits proj limit }
                (Reply.historyLimitSet proj limit))

/-- handler.go:498-513, the `pendingClearHist` branch: anything other
than the literal `confirm` cancels; otherwise the project history
sub-bucket is deleted and the removed count reported. -/
def tryPendingClearHist (p : PendingMaps) (st : Store) (user : Int)
    (text : String) : Option StepResult :=
  match alookup p.pendingClearHist user with
  | none => none
  | some proj =>
      if text = "" then none
      else
        if toLowerStr (trimSpace text) = "confirm" then
          some (StepResult.handled
            { p with pendingClearHist := aerase p.pendingClearHist user }
            { st with history := aerase st.history proj }
            (Reply.cleared
              (CountProjectHistory ((alookup st.history proj).getD emptyBucket))
              proj))
        else
          some (StepResult.handled
            { p with pendingClearHist := aerase p.pendingClearHist user }
            st Reply.cancelled)

/--
handler.go:406-517: after command dispatch found no command, the pending
registries are tried in the fixed order model, rule, web-search,
reasoning, transcription, history-limit, clear-history; the first match
with a non-empty `msg.Text` consumes its entry and acts; otherwise the
message continues to the conversational path, which never writes these
maps or buckets.
-/
def handleText (p : PendingMaps) (st : Store) (user : Int)
    (text : String) : StepResult :=
  match tryPendingModel p st user text with
  | some r => r
  | none =>
  match tryPendingRule p st user text with
  | some r => r
  | none =>
  match tryPendingWebSearch p st user text with
  | some r => r
  | none =>
  match tryPendingReasoning p st user text with
  | some r => r
  | none =>
  match tryPendingTranscribe p st user text with
  | some r => r
  | none =>
  match tryPendingHistLimit p st user text with
  | some r => r
  | none =>
  match tryPendingClearHist p st user text with
  | some r => r
  | none => StepResult.conversational p st

/-- handler.go:150-161, the `/newproject` command: missing argument
draws the usage string; otherwise the name is `Put` unconditionally and
the success template sent — registering an existing name is not
detected and not an error. -/
def handleNewProject (st : Store) (args : String) : Store × Reply :=
  if args = "" then (st, Reply.usageNewProject)
  else ({ st with projects := SaveProject st.projects args },
        Reply.projectRegistered args)

/-- handler.go:163-179, the `/settopic` command: missing argument draws
the usage string, an unknown project the not-found reply; otherwise the
binding for `(chatID, topicID)` is created or overwritten — there is no
check that the context has a topic id. -/
def handleSetTopic (st : Store) (chatID topicID : Int) (args : String) :
    Store × Reply :=
  if args = "" then (st, Reply.usageSetTopic)
  else if !(ProjectExists st.projects args) then (st, Reply.projectNotFound)
  else ({ st with mapping := MapTopic st.mapping chatID topicID args },
        Reply.topicMapped args)

/--
C5 — For every user whose only pending action is a web-search follow-up
and whose next (non-command) text message normalizes to something other
than high/medium/low/off: the handler answers with the corrective
prompt, the store — in particular the project's stored web-search
setting — is completely unchanged, the pending action is consumed and
not restored, and a second identical message falls through to the
conversational path, changing no configuration.
-/
theorem claim_C5 (p : PendingMaps) (st : Store) (user : Int)
    (text proj : String)
    (hModel : alookup p.pendingModel user = none)
    (hRule : alookup p.pendingRule user = none)
    (hWS : alookup p.pendingWebSearch user = some proj)
    (hReason : alookup p.pendingReasoning user = none)
    (hTrans : alookup p.pendingTranscribe user = none)
    (hHist : alookup p.pendingHistLimit user = none)
    (hClear : alookup p.pendingClearHist user = none)
    (htext : text ≠ "")
    (hval : ¬ (toLowerStr (trimSpace text) = "high" ∨
               toLowerStr (trimSpace text) = "medium" ∨
               toLowerStr (trimSpace text) = "low" ∨
               toLowerStr (trimSpace text) = "off")) :
    handleText p st user text =
      StepResult.handled
        { p with pendingWebSearch := aerase p.pendingWebSearch user }
        st Reply.webSearchInvalid ∧
    alookup (aerase p.pendingWebSearch user) user = none ∧
    handleText { p with pendingWebSearch := aerase p.pendingWebSearch user }
        st user text =
      StepResult.conversational
        { p with pendingWebSearch := aerase p.pendingWebSearch user } st := by
  refine ⟨?_, alookup_aerase_self _ _, ?_⟩
  · unfold handleText
    simp [tryPendingModel, tryPendingRule, tryPendingWebSearch,
      hModel, hRule, hWS, htext, hval]
  · unfold handleText
    simp [tryPendingModel, tryPendingRule, tryPendingWebSearch,
      tryPendingReasoning, tryPendingTranscribe, tryPendingHistLimit,
      tryPendingClearHist, hModel, hRule, hReason, hTrans, hHist, hClear,
      alookup_aerase_self]

/-- Witness for C5: user 7 has a pending web-search action for project
`demo` (stored setting `off`) and answers `bogus`. -/
theorem claim_C5_witness :
    handleText ⟨[], [], [(7, "demo")], [], [], [], []⟩
        ⟨["demo"], [], [], [], [("demo", "off")], [], [], [], []⟩ 7 "bogus" =
      StepResult.handled
        ⟨[], [], aerase [((7 : Int), "demo")] 7, [], [], [], []⟩
        ⟨["demo"], [], [], [], [("demo", "off")], [], [], [], []⟩
        Reply.webSearchInvalid ∧
    alookup (aerase [((7 : Int), "demo")] 7) 7 = none ∧
    handleText ⟨[], [], aerase [((7 : Int), "demo")] 7, [], [], [], []⟩
        ⟨["demo"], [], [], [], [("demo", "off")], [], [], [], []⟩ 7 "bogus" =
      StepResult.conversational
        ⟨[], [], aerase [((7 : Int), "demo")] 7, [], [], [], []⟩
        ⟨["demo"], [], [], [], [("demo", "off")], [], [], [], []⟩ :=
  claim_C5 ⟨[], [], [(7, "demo")], [], [], [], []⟩
    ⟨["demo"], [], [], [], [("demo", "off")], [], [], [], []⟩ 7 "bogus" "demo"
    rfl rfl rfl rfl rfl rfl rfl (by decide) (by decide)

/--
C6 (amended) — `/newproject` with a non-empty name always stores the
name and replies with the success template: a fresh name is appended to
the project set, while re-registering an existing name silently
overwrites the record (idempotently — the store is unchanged) and is
not an error.  Only a store I/O failure would be surfaced as an error.
(The original claim called a name collision an error; the counterexample
shows re-registration succeeds.)
-/
theorem claim_C6 (st : Store) (name : String) (hname : name ≠ "") :
    (handleNewProject st name).2 = Reply.projectRegistered name ∧
    ProjectExists (handleNewProject st name).1.projects name = true ∧
    (ProjectExists st.projects name = true →
      (handleNewProject st name).1 = st) ∧
    (ProjectExists st.projects name = false →
      (handleNewProject st name).1.projects = st.projects ++ [name]) := by
  unfold handleNewProject
  rw [if_neg hname]
  refine ⟨rfl, ?_, ?_, ?_⟩
  · by_cases hmem : name ∈ st.projects
    · simp [SaveProject, ProjectExists, hmem]
    · simp [SaveProject, ProjectExists, hmem]
  · intro hex
    have hmem : name ∈ st.projects := by
      simpa [ProjectExists] using hex
    simp [SaveProject, hmem]
  · intro hex
    have hmem : ¬ name ∈ st.projects := by
      simpa [ProjectExists] using hex
    simp [SaveProject, hmem]

/-- Witness for (amended) C6: re-registering `demo` and registering the
fresh name `other`. -/
theorem claim_C6_witness :
    ((handleNewProject ⟨["demo"], [], [], [], [], [], [], [], []⟩
        "demo").2 = Reply.projectRegistered "demo" ∧
      ProjectExists (handleNewProject ⟨["demo"], [], [], [], [], [], [], [], []⟩
        "demo").1.projects "demo" = true ∧
      (ProjectExists (["demo"] : List String) "demo" = true →
        (handleNewProject ⟨["demo"], [], [], [], [], [], [], [], []⟩
          "demo").1 = ⟨["demo"], [], [], [], [], [], [], [], []⟩) ∧
      (ProjectExists (["demo"] : List String) "demo" = false →
        (handleNewProject ⟨["demo"], [], [], [], [], [], [], [], []⟩
          "demo").1.projects = ["demo"] ++ ["demo"])) ∧
    (handleNewProject ⟨["demo"], [], [], [], [], [], [], [], []⟩
        "other").1.projects = ["demo"] ++ ["other"] :=
  ⟨claim_C6 ⟨["demo"], [], [], [], [], [], [], [], []⟩ "demo" (by decide),
   (claim_C6 ⟨["demo"], [], [], [], [], [], [], [], []⟩ "other"
      (by decide)).2.2.2 (by decide)⟩

/--
Counterexample to C6 as stated: with project `demo` already registered,
`/newproject demo` replies with the success template `Project 'demo'
registered.` and leaves the store unchanged — the collision is not an
error and nothing is surfaced to the user.
-/
theorem claim_C6_counterexample :
    handleNewProject ⟨["demo"], [], [], [], [], [], [], [], []⟩ "demo" =
      (⟨["demo"], [], [], [], [], [], [], [], []⟩,
       Reply.projectRegistered "demo") := by
  decide

/--
C7 (amended) — `/settopic` does not require the context to have a topic
id: for every chat id, every topic/thread id including 0 and every
non-empty argument naming an existing project, the command proceeds and
creates (or overwrites) the binding under key `(chat, topic)`, replying
with the mapped template.  (The original claim said topic id 0 stops
the command before binding; the counterexample shows the binding is
created.  Only `/unsettopic` checks the topic id.)
-/
theorem claim_C7 (st : Store) (chatID topicID : Int) (args : String)
    (hargs : args ≠ "") (hex : ProjectExists st.projects args = true) :
    (handleSetTopic st chatID topicID args).2 = Reply.topicMapped args ∧
    GetMappedProject (handleSetTopic st chatID topicID args).1.mapping
      chatID topicID = some args := by
  unfold handleSetTopic
  rw [if_neg hargs, hex]
  exact ⟨rfl, alookup_aupsert_self _ _ _⟩

/-- Witness for (amended) C7 at topic id 0. -/
theorem claim_C7_witness :
    (handleSetTopic ⟨["demo"], [], [], [], [], [], [], [], []⟩ 1 0
        "demo").2 = Reply.topicMapped "demo" ∧
    GetMappedProject (handleSetTopic
        ⟨["demo"], [], [], [], [], [], [], [], []⟩ 1 0 "demo").1.mapping
      1 0 = some "demo" :=
  claim_C7 ⟨["demo"], [], [], [], [], [], [], [], []⟩ 1 0 "demo"
    (by decide) (by decide)

/--
Counterexample to C7 as stated: invoking `/settopic demo` with
topic/thread id 0 (project `demo` exists, no prior binding) creates the
binding `(1, 0) ↦ demo` and reports success — the command does proceed
to bind.
-/
theorem claim_C7_counterexample :
    GetMappedProject (handleSetTopic
        ⟨["demo"], [], [], [], [], [], [], [], []⟩ 1 0 "demo").1.mapping
      1 0 = some "demo" ∧
    (handleSetTopic ⟨["demo"], [], [], [], [], [], [], [], []⟩ 1 0
        "demo").2 = Reply.topicMapped "demo" := by
  decide

end AiTelegramLink
